import Mathlib

/-!
Verification of the slunk-mcp repository's line-delimited JSON-RPC
tool-invocation exchange: the JSON codec used by the driver scripts,
the response-decoding read loop of test_all_mcp_tools.send_request,
the tool registry and dispatch of slunk-mcp/server.py, the status
classification of verify_all_tools.MCPToolVerifier, and the process
lifecycle of the driver runs.
-/

namespace Slunk

/-- JSON values as exchanged on the wire.  Numbers are restricted to
integers, the only numeric literals the drivers' requests contain. -/
inductive Json where
  | null : Json
  | bool : Bool → Json
  | num : Int → Json
  | str : String → Json
  | arr : List Json → Json
  | obj : List (String × Json) → Json

/-- Decimal digit character for a value below ten. -/
def digitChar (n : Nat) : Char := Char.ofNat (48 + n)

/-- Decimal digits of a natural number, most significant first. -/
def natChars (n : Nat) : List Char :=
  if _h : n < 10 then [digitChar n]
  else natChars (n / 10) ++ [digitChar (n % 10)]
termination_by n
decreasing_by
  exact Nat.div_lt_self (by omega) (by omega)

/-- Decimal representation of an integer, with a leading minus sign
when negative. -/
def intChars (n : Int) : List Char :=
  if n < 0 then '-' :: natChars n.natAbs else natChars n.toNat

/-- Lowercase hexadecimal digit character for a value below sixteen. -/
def hexDigit (n : Nat) : Char :=
  if n < 10 then Char.ofNat (48 + n) else Char.ofNat (87 + n)

/-- Four-digit lowercase hexadecimal rendering of a code point. -/
def hex4 (n : Nat) : List Char :=
  [hexDigit (n / 4096 % 16), hexDigit (n / 256 % 16), hexDigit (n / 16 % 16), hexDigit (n % 16)]

/-- Modelled from the spec: the escaping used by Python json.dumps with
its default ensure_ascii behaviour, which the driver scripts rely on for
the request encode step (short escapes for quote, backslash and the named
control characters; a u-escape for other control and non-ASCII
characters). -/
def escapeChar (c : Char) : List Char :=
  if c = '"' then ['\\', '"']
  else if c = '\\' then ['\\', '\\']
  else if c = '\n' then ['\\', 'n']
  else if c = '\r' then ['\\', 'r']
  else if c = '\t' then ['\\', 't']
  else if c.toNat = 8 then ['\\', 'b']
  else if c.toNat = 12 then ['\\', 'f']
  else if c.toNat < 32 || 126 < c.toNat then '\\' :: 'u' :: hex4 c.toNat
  else [c]

/-- Escape every character of a string body. -/
def escapeList : List Char → List Char
  | [] => []
  | c :: cs => escapeChar c ++ escapeList cs

mutual

/-- Modelled from the spec: Python json.dumps with its default
separators, as invoked by every driver script to encode a request
(`json.dumps(request)`). -/
def dumpChars : Json → List Char
  | .num n => intChars n
  | .str s => '"' :: (escapeList s.data ++ ['"'])
  | .arr [] => ['[', ']']
  | .arr (x :: xs) => '[' :: (dumpChars x ++ dumpElemsRest xs ++ [']'])
  | .obj [] => ['{', '}']
  | .obj (kv :: kvs) =>
      '{' :: (dumpMember kv ++ dumpMembersRest kvs ++ ['}'])
  | .bool b => if b then ['t', 'r', 'u', 'e'] else ['f', 'a', 'l', 's', 'e']
  | .null => ['n', 'u', 'l', 'l']

/-- Remaining array elements, each preceded by the default ", " separator. -/
def dumpElemsRest : List Json → List Char
  | [] => []
  | x :: xs => ',' :: ' ' :: (dumpChars x ++ dumpElemsRest xs)

/-- One object member, key and value joined by the default ": " separator. -/
def dumpMember : String × Json → List Char
  | (k, v) => '"' :: (escapeList k.data ++ ('"' :: ':' :: ' ' :: dumpChars v))

/-- Remaining object members, each preceded by the default ", " separator. -/
def dumpMembersRest : List (String × Json) → List Char
  | [] => []
  | kv :: kvs => ',' :: ' ' :: (dumpMember kv ++ dumpMembersRest kvs)

end

/-- Modelled from the spec: `encode(request) -> line`, i.e. Python
`json.dumps(request) + '\n'` as performed by send_request. -/
def dumps (v : Json) : String := String.mk (dumpChars v)

mutual

/-- Node count of a JSON value, the fuel budget its parse needs. -/
def sizeN : Json → Nat
  | .arr xs => 1 + sizeL xs
  | .obj kvs => 1 + sizeM kvs
  | .null => 1
  | .bool _ => 1
  | .num _ => 1
  | .str _ => 1

/-- Fuel budget for a tail of array elements. -/
def sizeL : List Json → Nat
  | [] => 0
  | x :: xs => 1 + sizeN x + sizeL xs

/-- Fuel budget for a tail of object members. -/
def sizeM : List (String × Json) → Nat
  | [] => 0
  | kv :: kvs => 1 + sizeN kv.2 + sizeM kvs

end

/-- Characters representable by the modelled ensure_ascii escaping:
code points inside the basic multilingual plane. -/
def validChars (cs : List Char) : Bool := cs.all fun c => c.toNat < 65536

mutual

/-- A JSON value all of whose strings (including object keys) are
representable by the modelled escaping. -/
def validJson : Json → Bool
  | .str s => validChars s.data
  | .arr xs => validJsonL xs
  | .obj kvs => validJsonM kvs
  | .null => true
  | .bool _ => true
  | .num _ => true

/-- Validity of a list of array elements. -/
def validJsonL : List Json → Bool
  | [] => true
  | x :: xs => validJson x && validJsonL xs

/-- Validity of a list of object members. -/
def validJsonM : List (String × Json) → Bool
  | [] => true
  | kv :: kvs => validChars kv.1.data && validJson kv.2 && validJsonM kvs

end

/-- Whitespace accepted between JSON tokens. -/
def jsonWs (c : Char) : Bool := c = ' ' || c = '\t' || c = '\n' || c = '\r'

/-- Drop leading JSON whitespace. -/
def skipWs : List Char → List Char
  | [] => []
  | c :: cs => if jsonWs c then skipWs cs else c :: cs

/-- ASCII decimal digit test as JSON uses it. -/
def isDigitC (c : Char) : Bool := 48 ≤ c.toNat && c.toNat ≤ 57

/-- Consume a run of decimal digits, accumulating their value. -/
def parseDigits (acc : Nat) : List Char → Nat × List Char
  | [] => (acc, [])
  | c :: cs =>
    if isDigitC c then parseDigits (acc * 10 + (c.toNat - 48)) cs
    else (acc, c :: cs)

/-- Value of a lowercase or uppercase hexadecimal digit character. -/
def hexVal (c : Char) : Option Nat :=
  if 48 ≤ c.toNat && c.toNat ≤ 57 then some (c.toNat - 48)
  else if 97 ≤ c.toNat && c.toNat ≤ 102 then some (c.toNat - 87)
  else if 65 ≤ c.toNat && c.toNat ≤ 70 then some (c.toNat - 55)
  else none

/-- Character denoted by a single-letter escape sequence. -/
def unescape1 (e : Char) : Option Char :=
  if e = '"' then some '"'
  else if e = '\\' then some '\\'
  else if e = '/' then some '/'
  else if e = 'n' then some '\n'
  else if e = 't' then some '\t'
  else if e = 'r' then some '\r'
  else if e = 'b' then some (Char.ofNat 8)
  else if e = 'f' then some (Char.ofNat 12)
  else none

/-- Body of a JSON string after the opening quote: unescape characters
up to the closing quote, returning the decoded characters and the rest
of the input. -/
def parseStrBody (cs : List Char) : Option (List Char × List Char) :=
  match cs with
  | [] => none
  | c :: rest =>
    if c = '"' then some ([], rest)
    else if c = '\\' then
      match rest with
      | [] => none
      | e :: rest2 =>
        if e = 'u' then
          match rest2 with
          | h1 :: h2 :: h3 :: h4 :: rest3 =>
            match hexVal h1, hexVal h2, hexVal h3, hexVal h4 with
            | some a, some b, some c3, some d =>
              match parseStrBody rest3 with
              | some (s, r) => some (Char.ofNat (a * 4096 + b * 256 + c3 * 16 + d) :: s, r)
              | none => none
            | _, _, _, _ => none
          | _ => none
        else
          match unescape1 e with
          | some u =>
            match parseStrBody rest2 with
            | some (s, r) => some (u :: s, r)
            | none => none
          | none => none
    else
      match parseStrBody rest with
      | some (s, r) => some (c :: s, r)
      | none => none
termination_by cs.length
decreasing_by all_goals simp_wf <;> omega

mutual

/-- Modelled from the spec: the value grammar of Python json.loads, the
decode step of every driver script, restricted to integer numerals.
Fuel bounds the recursion depth; callers supply one more unit than the
node count of the value being read.  Leading whitespace must already be
consumed. -/
def parseValue : Nat → List Char → Option (Json × List Char)
  | 0, _ => none
  | f + 1, cs =>
    match cs with
    | [] => none
    | c :: rest =>
      if c = 'n' then
        match rest with
        | 'u' :: 'l' :: 'l' :: r => some (.null, r)
        | _ => none
      else if c = 't' then
        match rest with
        | 'r' :: 'u' :: 'e' :: r => some (.bool true, r)
        | _ => none
      else if c = 'f' then
        match rest with
        | 'a' :: 'l' :: 's' :: 'e' :: r => some (.bool false, r)
        | _ => none
      else if c = '"' then
        match parseStrBody rest with
        | some (s, r) => some (.str (String.mk s), r)
        | none => none
      else if c = '[' then
        match skipWs rest with
        | [] => none
        | d :: r =>
          if d = ']' then some (.arr [], r)
          else
            match parseElems f (d :: r) with
            | some (xs, r1) =>
              match r1 with
              | [] => none
              | d2 :: r2 => if d2 = ']' then some (.arr xs, r2) else none
            | none => none
      else if c = '{' then
        match skipWs rest with
        | [] => none
        | d :: r =>
          if d = '}' then some (.obj [], r)
          else
            match parseMembers f (d :: r) with
            | some (kvs, r1) =>
              match r1 with
              | [] => none
              | d2 :: r2 => if d2 = '}' then some (.obj kvs, r2) else none
            | none => none
      else if c = '-' then
        match rest with
        | d :: _ =>
          if isDigitC d then
            match parseDigits 0 rest with
            | (m, r) => some (.num (-(m : Int)), r)
          else none
        | [] => none
      else if isDigitC c then
        match parseDigits 0 (c :: rest) with
        | (m, r) => some (.num (m : Int), r)
      else none

/-- Elements of a nonempty array: one value, then either a comma and
further elements or the end of the list.  Trailing whitespace after the
last element is consumed. -/
def parseElems : Nat → List Char → Option (List Json × List Char)
  | 0, _ => none
  | f + 1, cs =>
    match parseValue f cs with
    | some (v, r) =>
      match skipWs r with
      | [] => some ([v], [])
      | d :: r2 =>
        if d = ',' then
          match parseElems f (skipWs r2) with
          | some (vs, r3) => some (v :: vs, r3)
          | none => none
        else some ([v], d :: r2)
    | none => none

/-- Members of a nonempty object: a quoted key, a colon, a value, then
either a comma and further members or the end of the object. -/
def parseMembers : Nat → List Char → Option (List (String × Json) × List Char)
  | 0, _ => none
  | f + 1, cs =>
    match cs with
    | [] => none
    | q :: cs1 =>
      if q = '"' then
        match parseStrBody cs1 with
        | some (k, r1) =>
          match skipWs r1 with
          | [] => none
          | col :: r2 =>
            if col = ':' then
              match parseValue f (skipWs r2) with
              | some (v, r3) =>
                match skipWs r3 with
                | [] => some ([(String.mk k, v)], [])
                | d :: r5 =>
                  if d = ',' then
                    match parseMembers f (skipWs r5) with
                    | some (kvs, r6) => some ((String.mk k, v) :: kvs, r6)
                    | none => none
                  else some ([(String.mk k, v)], d :: r5)
              | none => none
            else none
        | none => none
      else none

end

/-- Modelled from the spec: Python json.loads applied to one candidate
line, the decode step of each driver (`json.loads(line)`): parse one
value surrounded by optional whitespace and reject trailing input. -/
def json_loads (s : String) : Option Json :=
  match parseValue (s.data.length + 1) (skipWs s.data) with
  | some (v, r) => if skipWs r = [] then some v else none
  | none => none

/-- The next input character, if any, is not a decimal digit.  This is
the boundary condition a serialized numeral needs so that its parse does
not run into the following characters. -/
def headNotDigit : List Char → Bool
  | [] => true
  | c :: _ => !isDigitC c

/-- Modelled from the spec: `encode(request) -> line`, the request
serialization each driver performs (`json.dumps(request) + '\n'`). -/
def encode (v : Json) : String := dumps v ++ "\n"

/-- Modelled from the spec: the whitespace Python str.strip removes
(ASCII range), as used on each candidate response line. -/
def pyWs (c : Char) : Bool := jsonWs c || c = '\x0b' || c = '\x0c'

/-- Modelled from the spec: Python `line.strip()`, dropping leading and
trailing whitespace from a candidate response line. -/
def pyStrip (s : String) : String :=
  String.mk (((s.data.dropWhile pyWs).reverse.dropWhile pyWs).reverse)

/-- Python `line.startswith(c)` for a one-character prefix. -/
def startsWithChar (s : String) (c : Char) : Bool := s.data.head? = some c

/-- The read loop of test_all_mcp_tools.send_request: one iteration per
attempt reads a line (an exhausted stream keeps yielding the empty
read), skips empty reads, lines whose stripped text starts with a
bracket (debug output), and lines that start with a brace but fail to
parse, and returns the parsed JSON of the first line that succeeds. -/
def readAttempts : Nat → List String → Option Json
  | 0, _ => none
  | n + 1, reads =>
    match reads with
    | [] => readAttempts n []
    | l :: rest =>
      if l = "" then readAttempts n rest
      else
        let s := pyStrip l
        if startsWithChar s '[' then readAttempts n rest
        else if startsWithChar s '{' then
          match json_loads s with
          | some j => some j
          | none => readAttempts n rest
        else readAttempts n rest

/-- The body of test_all_mcp_tools.send_request after the request has
been written: up to max_attempts = 10 reads of the response stream. -/
def send_request (reads : List String) : Option Json := readAttempts 10 reads

/-- A candidate line whose stripped text parses as a JSON object - the
lines the read loop accepts. -/
def parsesAsObj (l : String) : Bool :=
  match json_loads (pyStrip l) with
  | some (.obj _) => true
  | _ => false

/-- The ping_slunk tool handler of slunk-mcp/server.py: it takes no
arguments and returns the fixed literal acknowledgment string. -/
def ping_slunk : Unit → String := fun _ => "Pong slunk!"

/-- The server name passed to the framework in server.py
(`FastMCP("slunk")`). -/
def serverName : String := "slunk"

/-- Server identity returned by the initialize handshake. -/
structure ServerInfo where
  name : String
  version : String

/-- Result of an initialize request. -/
structure InitResult where
  serverInfo : ServerInfo

/-- Modelled from the spec: the initialize handshake result
`{serverInfo: {name, version}, capabilities}`; the framework that builds
it is not part of the repository.  The version string is not fixed by
server.py, so it stays a parameter. -/
def initialize_result (version : String) : InitResult :=
  { serverInfo := { name := serverName, version := version } }

/-- One entry of a tool result's content sequence. -/
structure ContentItem where
  type : String
  text : String

/-- A successful tool invocation result. -/
structure ToolResult where
  content : List ContentItem

/-- Failure modes of dispatch. -/
inductive DispatchError where
  | unknownTool
  | invalidArguments
deriving DecidableEq

/-- The tool registry of server.py: the single tool ping_slunk,
registered by the mcp.tool decorator.  It is fixed at server start. -/
def registry : List (String × (Unit → String)) := [("ping_slunk", ping_slunk)]

/-- Modelled from the spec: `dispatch(name, arguments) -> ToolResult`,
failing with UnknownToolError when the name is not registered and
otherwise wrapping the bound handler's output as
`{content: [{type: "text", text: <string>}]}`.  The only registered
tool, ping_slunk, declares no arguments, so its schema accepts any
argument mapping. -/
def dispatch (name : String) (_arguments : List (String × Json)) :
    Except DispatchError ToolResult :=
  match registry.find? fun p => p.1 = name with
  | some p => .ok { content := [{ type := "text", text := p.2 () }] }
  | none => .error .unknownTool

/-- A JSON-RPC reply carrying exactly one of result or error. -/
structure RpcReply where
  result : Option ToolResult
  error : Option String

/-- Modelled from the spec: the reply to a tools/call request - tool
failures are wrapped into the error-response shape
`{version, id, error:{message}}`, successes into a result with a content
payload; the two are mutually exclusive. -/
def handleToolsCall (name : String) (arguments : List (String × Json)) : RpcReply :=
  match dispatch name arguments with
  | .ok r => { result := some r, error := none }
  | .error .unknownTool => { result := none, error := some ("Unknown tool: " ++ name) }
  | .error .invalidArguments => { result := none, error := some "Invalid arguments" }

namespace VerifyAllTools

/-- Default value of the request_id parameter of
MCPToolVerifier.send_request in verify_all_tools.py. -/
def request_id_default : Nat := 1

/-- The request object MCPToolVerifier.send_request serializes:
`{"jsonrpc": "2.0", "method": method, "params": params or {},
"id": request_id}`. -/
def send_request_payload (method : String) (params : Option Json)
    (request_id : Nat) : Json :=
  .obj [("jsonrpc", .str "2.0"), ("method", .str method),
        ("params", params.getD (.obj [])), ("id", .num request_id)]

/-- The initialize request issued by run_all_tests
(`self.send_request("initialize")`): no params, default id. -/
def initialize_request : Json :=
  send_request_payload "initialize" none request_id_default

/-- The tools/list request issued by run_all_tests
(`self.send_request("tools/list", \x7b\x7d, 2)`): explicit id 2. -/
def tools_list_request : Json :=
  send_request_payload "tools/list" (some (.obj [])) 2

/-- The tools/call request issued by verify_tool for one tool: it does
not pass request_id, so the default id is used. -/
def verify_tool_request (tool_name : String) (test_params : Json) : Json :=
  send_request_payload "tools/call"
    (some (.obj [("name", .str tool_name), ("arguments", test_params)]))
    request_id_default

/-- The requests one verify_tool call writes to the server: exactly the
single tools/call request; there is no retry. -/
def verify_tool_requests (tool_name : String) (test_params : Json) : List Json :=
  [verify_tool_request tool_name test_params]

/-- The id field of a request object. -/
def reqId (j : Json) : Option Json :=
  match j with
  | .obj kvs => (kvs.find? fun kv => kv.1 = "id").map fun kv => kv.2
  | _ => none

/-- A decoded response as verify_tool inspects it: an optional error
message (`response['error'].get('message', ...)`) and an optional result
content sequence (`response['result'].get('content', [])`). -/
structure VResponse where
  error : Option String
  result : Option (List ContentItem)

/-- The status verify_tool records in test_results for one tool, from
the decoded response: None from send_request means TIMEOUT; an error
member is reported as ERROR; a result with a nonempty content whose
first text is nonempty is SUCCESS; otherwise EMPTY_RESPONSE or
NO_CONTENT; a response with neither member records no status. -/
def verify_tool_status (resp : Option VResponse) : Option String :=
  match resp with
  | none => some "TIMEOUT"
  | some r =>
    match r.error with
    | some msg => some ("ERROR: " ++ msg)
    | none =>
      match r.result with
      | some content =>
        match content.head? with
        | some c0 => if c0.text = "" then some "EMPTY_RESPONSE" else some "SUCCESS"
        | none => some "NO_CONTENT"
      | none => none

end VerifyAllTools

namespace Comprehensive

/-- Outcome of process.communicate for one test case of
test_mcp_comprehensive.test_mcp_tools. -/
inductive CommOutcome where
  | completed (stdout : String)
  | timedOut
deriving DecidableEq

/-- The status test_mcp_comprehensive records for one test case:
nonempty stripped stdout is success, empty is no_response, and the
TimeoutExpired handler records timeout. -/
def case_status : CommOutcome → String
  | .completed out => if pyStrip out = "" then "no_response" else "success"
  | .timedOut => "timeout"

end Comprehensive

/-- Process-lifecycle events a driver run can perform on the spawned
server subprocess.  communicate covers Python process.communicate
returning normally, which waits for the child to exit and reaps it. -/
inductive PEvent where
  | spawn
  | communicate
  | kill
  | terminate
  | wait
deriving DecidableEq

/-- Events of one run of test_all_mcp_tools.test_mcp_server: the
exchange runs inside try, the except handler only prints, and the
finally block always calls proc.terminate() and proc.wait(). -/
def test_mcp_server_trace (_bodyRaises : Bool) : List PEvent :=
  [.spawn] ++ [.terminate, .wait]

/-- Events of one run of verify_all_tools.main: the tests run inside
try, and the finally block calls cleanup, which terminates and waits
exactly when the subprocess was started (`if self.proc`). -/
def main_trace (serverStarted : Bool) (_bodyRaises : Bool) : List PEvent :=
  (if serverStarted then [PEvent.spawn] else []) ++
    (if serverStarted then [PEvent.terminate, PEvent.wait] else [])

/-- Outcomes of one test case of test_mcp_comprehensive.test_mcp_tools
after its subprocess was spawned. -/
inductive CaseOutcome where
  | completed
  | timedOut
  | raised
deriving DecidableEq

/-- Events of one test case of test_mcp_comprehensive.test_mcp_tools: a
fresh subprocess per case; communicate reaps the process when it
completes, the TimeoutExpired handler calls process.kill() without a
wait, and the outer exception handler performs no process cleanup. -/
def test_case_trace : CaseOutcome → List PEvent
  | .completed => [.spawn, .communicate]
  | .timedOut => [.spawn, .kill]
  | .raised => [.spawn]

/-- The run spawned the server subprocess. -/
def spawned (tr : List PEvent) : Bool := tr.contains .spawn

/-- The run ended the subprocess (terminate, kill, or communicate
running to process exit). -/
def terminated (tr : List PEvent) : Bool :=
  tr.contains .terminate || tr.contains .kill || tr.contains .communicate

/-- The run waited on (reaped) the subprocess. -/
def reaped (tr : List PEvent) : Bool :=
  tr.contains .wait || tr.contains .communicate

theorem digitChar_toNat {u : Nat} (h : u < 10) : (digitChar u).toNat = 48 + u := by
  have : ∀ m, m < 10 → (digitChar m).toNat = 48 + m := by decide
  exact this u h

theorem isDigitC_digitChar {u : Nat} (h : u < 10) : isDigitC (digitChar u) = true := by
  have : ∀ m, m < 10 → isDigitC (digitChar m) = true := by decide
  exact this u h

theorem natChars_head (n : Nat) :
    ∃ d t, natChars n = d :: t ∧ isDigitC d = true := by
  induction n using Nat.strong_induction_on with
  | _ n ih =>
    by_cases h : n < 10
    · exact ⟨digitChar n, [], by rw [natChars]; simp [h], isDigitC_digitChar h⟩
    · obtain ⟨d, t, hdt, hd⟩ := ih (n / 10) (Nat.div_lt_self (by omega) (by omega))
      refine ⟨d, t ++ [digitChar (n % 10)], ?_, hd⟩
      rw [natChars]; simp [h, hdt]

theorem parseDigits_stop {acc : Nat} {rest : List Char}
    (h : headNotDigit rest = true) : parseDigits acc rest = (acc, rest) := by
  cases rest with
  | nil => rfl
  | cons c cs =>
    simp only [headNotDigit, Bool.not_eq_true'] at h
    simp [parseDigits, h]

theorem parseDigits_natChars (n : Nat) :
    ∀ acc rest, parseDigits acc (natChars n ++ rest) =
      parseDigits (acc * 10 ^ (natChars n).length + n) rest := by
  induction n using Nat.strong_induction_on with
  | _ n ih =>
    intro acc rest
    by_cases h : n < 10
    · rw [natChars]; simp only [h, dite_true]
      simp [parseDigits, isDigitC_digitChar h, digitChar_toNat h]
    · rw [natChars]; simp only [h, dite_false]
      have hlt : n / 10 < n := Nat.div_lt_self (by omega) (by omega)
      rw [List.append_assoc, List.cons_append, List.nil_append,
        ih (n / 10) hlt acc (digitChar (n % 10) :: rest)]
      have h10 : n % 10 < 10 := Nat.mod_lt _ (by omega)
      simp only [parseDigits, isDigitC_digitChar h10, if_true, digitChar_toNat h10]
      have e1 : 48 + n % 10 - 48 = n % 10 := by omega
      have e2 : (natChars (n / 10) ++ [digitChar (n % 10)]).length
          = (natChars (n / 10)).length + 1 := by simp
      have e3 : n / 10 * 10 + n % 10 = n := by omega
      rw [e1, e2, pow_succ, Nat.add_mul, Nat.mul_assoc, Nat.add_assoc, e3]

theorem parseDigits_roundtrip {n : Nat} {rest : List Char}
    (h : headNotDigit rest = true) :
    parseDigits 0 (natChars n ++ rest) = (n, rest) := by
  rw [parseDigits_natChars, Nat.zero_mul, Nat.zero_add, parseDigits_stop h]

theorem hexVal_hexDigit {m : Nat} (h : m < 16) : hexVal (hexDigit m) = some m := by
  have : ∀ u, u < 16 → hexVal (hexDigit u) = some u := by decide
  exact this m h

theorem parseStrBody_quote (rest : List Char) :
    parseStrBody ('"' :: rest) = some ([], rest) := by
  rw [parseStrBody.eq_def]; simp

theorem parseStrBody_lit {c : Char} (h1 : ¬ c = '"') (h2 : ¬ c = '\\')
    (rest : List Char) :
    parseStrBody (c :: rest) =
      match parseStrBody rest with
      | some (s, r) => some (c :: s, r)
      | none => none := by
  rw [parseStrBody.eq_def]; simp [h1, h2]

theorem parseStrBody_esc {e u : Char} (hne : ¬ e = 'u') (h : unescape1 e = some u)
    (rest : List Char) :
    parseStrBody ('\\' :: e :: rest) =
      match parseStrBody rest with
      | some (s, r) => some (u :: s, r)
      | none => none := by
  rw [parseStrBody.eq_def]; simp [hne, h]

theorem parseStrBody_u {h1 h2 h3 h4 : Char} {a b c3 d : Nat}
    (ha : hexVal h1 = some a) (hb : hexVal h2 = some b)
    (hc : hexVal h3 = some c3) (hd : hexVal h4 = some d) (rest : List Char) :
    parseStrBody ('\\' :: 'u' :: h1 :: h2 :: h3 :: h4 :: rest) =
      match parseStrBody rest with
      | some (s, r) => some (Char.ofNat (a * 4096 + b * 256 + c3 * 16 + d) :: s, r)
      | none => none := by
  rw [parseStrBody.eq_def]; simp [ha, hb, hc, hd]

theorem parseStrBody_escape (cs : List Char) :
    ∀ rest, validChars cs = true →
      parseStrBody (escapeList cs ++ ('"' :: rest)) = some (cs, rest) := by
  induction cs with
  | nil =>
    intro rest _
    simpa [escapeList] using parseStrBody_quote rest
  | cons c cs ih =>
    intro rest hv
    simp only [validChars, List.all_cons, Bool.and_eq_true, decide_eq_true_eq] at hv
    obtain ⟨hc, hcs⟩ := hv
    have ihcs := ih rest (by simpa [validChars] using hcs)
    simp only [escapeList, List.append_assoc]
    by_cases h1 : c = '"'
    · subst h1
      simp [escapeChar]
      rw [@parseStrBody_esc '"' '"' (by decide) (by decide), ihcs]
    · by_cases h2 : c = '\\'
      · subst h2
        simp [escapeChar]
        rw [@parseStrBody_esc '\\' '\\' (by decide) (by decide), ihcs]
      · by_cases h3 : c = '\n'
        · subst h3
          simp [escapeChar]
          rw [@parseStrBody_esc 'n' '\n' (by decide) (by decide), ihcs]
        · by_cases h4 : c = '\r'
          · subst h4
            simp [escapeChar]
            rw [@parseStrBody_esc 'r' '\r' (by decide) (by decide), ihcs]
          · by_cases h5 : c = '\t'
            · subst h5
              simp [escapeChar]
              rw [@parseStrBody_esc 't' '\t' (by decide) (by decide), ihcs]
            · by_cases h6 : c.toNat = 8
              · have hc8 : Char.ofNat 8 = c := by rw [← h6, Char.ofNat_toNat]
                simp [escapeChar, h1, h2, h3, h4, h5, h6]
                rw [@parseStrBody_esc 'b' (Char.ofNat 8) (by decide) (by decide),
                  ihcs, hc8]
              · by_cases h7 : c.toNat = 12
                · have hc12 : Char.ofNat 12 = c := by rw [← h7, Char.ofNat_toNat]
                  simp [escapeChar, h1, h2, h3, h4, h5, h6, h7]
                  rw [@parseStrBody_esc 'f' (Char.ofNat 12) (by decide) (by decide),
                    ihcs, hc12]
                · by_cases h8 : c.toNat < 32 || 126 < c.toNat
                  · have ha : c.toNat / 4096 % 16 < 16 := Nat.mod_lt _ (by omega)
                    have hb : c.toNat / 256 % 16 < 16 := Nat.mod_lt _ (by omega)
                    have hc3 : c.toNat / 16 % 16 < 16 := Nat.mod_lt _ (by omega)
                    have hd : c.toNat % 16 < 16 := Nat.mod_lt _ (by omega)
                    have hsum : c.toNat / 4096 % 16 * 4096 + c.toNat / 256 % 16 * 256 +
                        c.toNat / 16 % 16 * 16 + c.toNat % 16 = c.toNat := by omega
                    simp [escapeChar, h1, h2, h3, h4, h5, h6, h7, h8, hex4]
                    rw [parseStrBody_u (hexVal_hexDigit ha) (hexVal_hexDigit hb)
                      (hexVal_hexDigit hc3) (hexVal_hexDigit hd), ihcs, hsum,
                      Char.ofNat_toNat]
                  · simp [escapeChar, h1, h2, h3, h4, h5, h6, h7, h8]
                    rw [parseStrBody_lit h1 h2, ihcs]

theorem sizeN_pos (v : Json) : 1 ≤ sizeN v := by
  cases v <;> simp [sizeN]

theorem skipWs_not {c : Char} (h : jsonWs c = false) (cs : List Char) :
    skipWs (c :: cs) = c :: cs := by
  simp [skipWs, h]

theorem isDigitC_props {c : Char} (h : isDigitC c = true) :
    c ≠ 'n' ∧ c ≠ 't' ∧ c ≠ 'f' ∧ c ≠ '"' ∧ c ≠ '[' ∧ c ≠ '{' ∧ c ≠ '-' ∧
      jsonWs c = false ∧ c ≠ ']' ∧ c ≠ '}' ∧ c ≠ ',' := by
  simp only [isDigitC, Bool.and_eq_true, decide_eq_true_eq] at h
  refine ⟨?_, ?_, ?_, ?_, ?_, ?_, ?_, ?_, ?_, ?_, ?_⟩
  all_goals first
    | (intro he; subst he; revert h; decide)
    | (cases hb : jsonWs c with
       | true =>
         exfalso
         simp only [jsonWs, Bool.or_eq_true, decide_eq_true_eq] at hb
         rcases hb with ((hb | hb) | hb) | hb <;> (subst hb; revert h; decide)
       | false => rfl)

theorem dumpChars_head (v : Json) :
    ∃ c t, dumpChars v = c :: t ∧ jsonWs c = false ∧ c ≠ ']' ∧ c ≠ '}' ∧ c ≠ ',' := by
  cases v with
  | null => exact ⟨'n', _, rfl, by decide, by decide, by decide, by decide⟩
  | bool b =>
    cases b with
    | true => exact ⟨'t', _, rfl, by decide, by decide, by decide, by decide⟩
    | false => exact ⟨'f', _, rfl, by decide, by decide, by decide, by decide⟩
  | num n =>
    by_cases hn : n < 0
    · exact ⟨'-', natChars n.natAbs, by simp [dumpChars, intChars, hn], by decide,
        by decide, by decide, by decide⟩
    · obtain ⟨d, t, hdt, hd⟩ := natChars_head n.toNat
      obtain ⟨_, _, _, _, _, _, _, hws, hrb, hcb, hcm⟩ := isDigitC_props hd
      exact ⟨d, t, by simp [dumpChars, intChars, hn, hdt], hws, hrb, hcb, hcm⟩
  | str s => exact ⟨'"', _, rfl, by decide, by decide, by decide, by decide⟩
  | arr xs =>
    cases xs with
    | nil => exact ⟨'[', _, rfl, by decide, by decide, by decide, by decide⟩
    | cons x xs => exact ⟨'[', _, rfl, by decide, by decide, by decide, by decide⟩
  | obj kvs =>
    cases kvs with
    | nil => exact ⟨'{', _, rfl, by decide, by decide, by decide, by decide⟩
    | cons kv kvs => exact ⟨'{', _, rfl, by decide, by decide, by decide, by decide⟩

theorem skipWs_dump (v : Json) (rest : List Char) :
    skipWs (dumpChars v ++ rest) = dumpChars v ++ rest := by
  obtain ⟨c, t, hct, hws, _, _, _⟩ := dumpChars_head v
  rw [hct, List.cons_append, skipWs_not hws]

theorem headNotDigit_dumpElemsRest (xs : List Json) {cl : Char}
    (hcl : isDigitC cl = false) (rest : List Char) :
    headNotDigit (dumpElemsRest xs ++ (cl :: rest)) = true := by
  cases xs with
  | nil => simp [dumpElemsRest, headNotDigit, hcl]
  | cons x xs => simp [dumpElemsRest, headNotDigit]; decide

theorem headNotDigit_dumpMembersRest (kvs : List (String × Json)) {cl : Char}
    (hcl : isDigitC cl = false) (rest : List Char) :
    headNotDigit (dumpMembersRest kvs ++ (cl :: rest)) = true := by
  cases kvs with
  | nil => simp [dumpMembersRest, headNotDigit, hcl]
  | cons kv kvs => simp [dumpMembersRest, headNotDigit]; decide

theorem parse_dump_all : ∀ f : Nat,
    (∀ v rest, validJson v = true → sizeN v ≤ f → headNotDigit rest = true →
      parseValue f (dumpChars v ++ rest) = some (v, rest)) ∧
    (∀ x xs rest cl, validJson x = true → validJsonL xs = true →
      sizeL (x :: xs) ≤ f → jsonWs cl = false → cl ≠ ',' → isDigitC cl = false →
      parseElems f (dumpChars x ++ (dumpElemsRest xs ++ (cl :: rest))) =
        some (x :: xs, cl :: rest)) ∧
    (∀ k v kvs rest cl, validChars k.data = true → validJson v = true →
      validJsonM kvs = true → sizeM ((k, v) :: kvs) ≤ f →
      jsonWs cl = false → cl ≠ ',' → isDigitC cl = false →
      parseMembers f (dumpMember (k, v) ++ (dumpMembersRest kvs ++ (cl :: rest))) =
        some ((k, v) :: kvs, cl :: rest)) := by
  intro f
  induction f with
  | zero =>
    refine ⟨?_, ?_, ?_⟩
    · intro v rest _ hs _
      have := sizeN_pos v; omega
    · intro x xs rest cl _ _ hs _ _ _
      simp [sizeL] at hs
    · intro k v kvs rest cl _ _ _ hs _ _ _
      simp [sizeM] at hs
  | succ f ih =>
    obtain ⟨ihV, ihE, ihM⟩ := ih
    refine ⟨?_, ?_, ?_⟩
    · intro v rest hval hsz hnd
      cases v with
      | null => simp [dumpChars, parseValue]
      | bool b => cases b <;> simp [dumpChars, parseValue]
      | num n =>
        by_cases hn : n < 0
        · obtain ⟨d, t, hdt, hd⟩ := natChars_head n.natAbs
          have hneg : -((n.natAbs : Nat) : Int) = n := by omega
          rw [show dumpChars (.num n) = '-' :: natChars n.natAbs from by
            simp [dumpChars, intChars, hn]]
          rw [hdt]
          simp only [List.cons_append]
          have hlist : d :: (t ++ rest) = natChars n.natAbs ++ rest := by
            rw [hdt]; simp
          simp only [parseValue, reduceIte, hd, if_true]
          rw [hlist, parseDigits_roundtrip hnd, hneg]
          simp
        · obtain ⟨d, t, hdt, hd⟩ := natChars_head n.toNat
          obtain ⟨hd1, hd2, hd3, hd4, hd5, hd6, hd7, _, _, _, _⟩ := isDigitC_props hd
          have hpos : ((n.toNat : Nat) : Int) = n := Int.toNat_of_nonneg (by omega)
          rw [show dumpChars (.num n) = natChars n.toNat from by
            simp [dumpChars, intChars, hn]]
          rw [hdt]
          simp only [List.cons_append]
          have hlist : d :: (t ++ rest) = natChars n.toNat ++ rest := by
            rw [hdt]; simp
          simp only [parseValue, hd1, hd2, hd3, hd4, hd5, hd6, hd7, if_false, hd,
            if_true, reduceIte]
          rw [hlist, parseDigits_roundtrip hnd, hpos]
      | str s =>
        have hpsb := parseStrBody_escape s.data rest (by simpa [validJson] using hval)
        simp only [dumpChars, List.cons_append, List.append_assoc, List.nil_append]
        simp [parseValue, hpsb]
      | arr xs =>
        cases xs with
        | nil => simp [dumpChars, parseValue, skipWs, jsonWs]
        | cons x xs =>
          simp only [validJson, validJsonL, Bool.and_eq_true] at hval
          obtain ⟨hvx, hvxs⟩ := hval
          have hszL : sizeL (x :: xs) ≤ f := by simp [sizeN] at hsz; omega
          have hE := ihE x xs rest ']' hvx hvxs hszL (by decide) (by decide) (by decide)
          obtain ⟨cx, tx, hcx, hwsx, hnex, _, _⟩ := dumpChars_head x
          rw [hcx] at hE
          simp only [List.cons_append] at hE
          simp only [dumpChars, List.cons_append, List.append_assoc, List.nil_append]
          rw [hcx]
          simp only [List.cons_append]
          simp [parseValue, skipWs, hwsx, hnex, hE]
      | obj kvs =>
        cases kvs with
        | nil => simp [dumpChars, parseValue, skipWs, jsonWs]
        | cons kv kvs =>
          obtain ⟨k, v⟩ := kv
          simp only [validJson, validJsonM, Bool.and_eq_true] at hval
          obtain ⟨⟨hk, hv⟩, hkvs⟩ := hval
          have hszM : sizeM ((k, v) :: kvs) ≤ f := by simp [sizeN] at hsz; omega
          have hM := ihM k v kvs rest '}' hk hv hkvs hszM (by decide) (by decide)
            (by decide)
          simp only [dumpMember, List.cons_append, List.append_assoc] at hM
          simp only [dumpChars, dumpMember, List.cons_append, List.append_assoc,
            List.nil_append]
          simp [parseValue, skipWs, jsonWs, hM]
    · intro x xs rest cl hvx hvxs hsz hws hcm hcd
      have hndr : headNotDigit (dumpElemsRest xs ++ (cl :: rest)) = true :=
        headNotDigit_dumpElemsRest xs hcd rest
      have hszx : sizeN x ≤ f := by simp [sizeL] at hsz; omega
      have hV := ihV x (dumpElemsRest xs ++ (cl :: rest)) hvx hszx hndr
      cases xs with
      | nil =>
        simp only [dumpElemsRest, List.nil_append] at hV ⊢
        simp [parseElems, hV, skipWs_not hws, hcm]
      | cons y ys =>
        simp only [validJsonL, Bool.and_eq_true] at hvxs
        obtain ⟨hvy, hvys⟩ := hvxs
        have hszy : sizeL (y :: ys) ≤ f := by
          have := sizeN_pos x
          simp [sizeL] at hsz ⊢; omega
        have hE := ihE y ys rest cl hvy hvys hszy hws hcm hcd
        have hsky : skipWs (dumpChars y ++ (dumpElemsRest ys ++ (cl :: rest))) =
            dumpChars y ++ (dumpElemsRest ys ++ (cl :: rest)) := skipWs_dump y _
        simp only [dumpElemsRest, List.cons_append, List.append_assoc] at hV ⊢
        simp [parseElems, hV, skipWs, jsonWs, hsky, hE]
    · intro k v kvs rest cl hk hv hkvs hsz hws hcm hcd
      have hndr : headNotDigit (dumpMembersRest kvs ++ (cl :: rest)) = true :=
        headNotDigit_dumpMembersRest kvs hcd rest
      have hszv : sizeN v ≤ f := by simp [sizeM] at hsz; omega
      have hV := ihV v (dumpMembersRest kvs ++ (cl :: rest)) hv hszv hndr
      have hpsb := parseStrBody_escape k.data
        (':' :: ' ' :: (dumpChars v ++ (dumpMembersRest kvs ++ (cl :: rest)))) hk
      have hskv : skipWs (dumpChars v ++ (dumpMembersRest kvs ++ (cl :: rest))) =
          dumpChars v ++ (dumpMembersRest kvs ++ (cl :: rest)) := skipWs_dump v _
      cases kvs with
      | nil =>
        have hws' := hws
        simp only [jsonWs, Bool.or_eq_false_iff, decide_eq_false_iff_not] at hws'
        simp only [dumpMembersRest, List.nil_append] at hV hpsb hskv ⊢
        simp only [dumpMember, List.cons_append, List.append_assoc]
        simp [parseMembers, hpsb, skipWs, jsonWs, hskv, hV, hws', hcm]
      | cons kv2 kvs2 =>
        obtain ⟨k2, v2⟩ := kv2
        simp only [validJsonM, Bool.and_eq_true] at hkvs
        obtain ⟨⟨hk2, hv2⟩, hkvs2⟩ := hkvs
        have hszm : sizeM ((k2, v2) :: kvs2) ≤ f := by
          have := sizeN_pos v
          simp [sizeM] at hsz ⊢; omega
        have hM := ihM k2 v2 kvs2 rest cl hk2 hv2 hkvs2 hszm hws hcm hcd
        simp only [dumpMember, List.cons_append, List.append_assoc] at hM
        simp only [dumpMembersRest, dumpMember, List.cons_append,
          List.append_assoc] at hV hpsb hskv ⊢
        simp [parseMembers, hpsb, skipWs, jsonWs, hskv, hV, hM]

mutual

theorem sizeN_le_len (v : Json) : sizeN v ≤ (dumpChars v).length := by
  cases v with
  | null => simp [sizeN, dumpChars]
  | bool b => cases b <;> simp [sizeN, dumpChars]
  | num n =>
    by_cases hn : n < 0
    · simp [sizeN, dumpChars, intChars, hn]
    · obtain ⟨d, t, hdt, _⟩ := natChars_head n.toNat
      simp [sizeN, dumpChars, intChars, hn, hdt]
  | str s => simp [sizeN, dumpChars]
  | arr xs =>
    cases xs with
    | nil => simp [sizeN, sizeL, dumpChars]
    | cons x xs =>
      have h1 := sizeN_le_len x
      have h2 := sizeL_le_len xs
      simp only [sizeN, sizeL, dumpChars, List.length_cons, List.length_append]
      omega
  | obj kvs =>
    cases kvs with
    | nil => simp [sizeN, sizeM, dumpChars]
    | cons kv kvs =>
      obtain ⟨k, v2⟩ := kv
      have h1 := sizeN_le_len v2
      have h2 := sizeM_le_len kvs
      simp only [sizeN, sizeM, dumpChars, dumpMember, List.length_cons,
        List.length_append]
      omega

theorem sizeL_le_len (xs : List Json) : sizeL xs ≤ (dumpElemsRest xs).length := by
  cases xs with
  | nil => simp [sizeL, dumpElemsRest]
  | cons x xs =>
    have h1 := sizeN_le_len x
    have h2 := sizeL_le_len xs
    simp only [sizeL, dumpElemsRest, List.length_cons, List.length_append]
    omega

theorem sizeM_le_len (kvs : List (String × Json)) :
    sizeM kvs ≤ (dumpMembersRest kvs).length := by
  cases kvs with
  | nil => simp [sizeM, dumpMembersRest]
  | cons kv kvs =>
    obtain ⟨k, v2⟩ := kv
    have h1 := sizeN_le_len v2
    have h2 := sizeM_le_len kvs
    simp only [sizeM, dumpMembersRest, dumpMember, List.length_cons,
      List.length_append]
    omega

end


/-- C4: for every syntactically valid (escaping-representable) request
value, decoding the encoded form reconstructs a value equal to the
original: encode is JSON serialization plus a terminating newline, and
decode is JSON parsing of the line. -/
theorem decode_encode_roundtrip (v : Json) (h : validJson v = true) :
    json_loads (encode v) = some v := by
  have hdata : (encode v).data = dumpChars v ++ ['\n'] := by
    rw [encode, String.data_append]; rfl
  obtain ⟨hV, -, -⟩ := parse_dump_all ((dumpChars v).length + 2)
  have hsz : sizeN v ≤ (dumpChars v).length + 2 := by
    have := sizeN_le_len v; omega
  have hp := hV v ['\n'] h hsz (by decide)
  have hfl : (dumpChars v ++ ['\n']).length + 1 = (dumpChars v).length + 2 := by simp
  simp only [json_loads, hdata, hfl, skipWs_dump, hp]
  simp [skipWs, jsonWs]


theorem dropWhile_head_not (p : Char → Bool) :
    ∀ (l : List Char) (c : Char), (l.dropWhile p).head? = some c → p c = false := by
  intro l
  induction l with
  | nil => intro c h; simp at h
  | cons a l ih =>
    intro c h
    by_cases hp : p a = true
    · rw [List.dropWhile_cons_of_pos hp] at h
      exact ih c h
    · rw [List.dropWhile_cons_of_neg hp] at h
      simp only [List.head?_cons, Option.some.injEq] at h
      subst h
      simpa using hp

theorem pyStrip_head_not_ws {l : String} {c : Char}
    (h : (pyStrip l).data.head? = some c) : pyWs c = false := by
  replace h : (((l.data.dropWhile pyWs).reverse.dropWhile pyWs).reverse).head?
      = some c := h
  have hsfx : (l.data.dropWhile pyWs).reverse.dropWhile pyWs <:+
      (l.data.dropWhile pyWs).reverse := List.dropWhile_suffix pyWs
  have hpre : ((l.data.dropWhile pyWs).reverse.dropWhile pyWs).reverse <+:
      l.data.dropWhile pyWs := by
    have h2 := List.reverse_prefix.mpr hsfx
    simpa using h2
  obtain ⟨t, ht⟩ := hpre
  rcases hb : ((l.data.dropWhile pyWs).reverse.dropWhile pyWs).reverse
    with _ | ⟨c2, t2⟩
  · rw [hb] at h; simp at h
  · rw [hb] at h ht
    simp only [List.head?_cons, Option.some.injEq] at h
    subst h
    have hha : (l.data.dropWhile pyWs).head? = some c2 := by rw [← ht]; rfl
    exact dropWhile_head_not pyWs l.data c2 hha

theorem pyWs_false_jsonWs {c : Char} (h : pyWs c = false) : jsonWs c = false := by
  cases hj : jsonWs c with
  | false => rfl
  | true => simp [pyWs, hj] at h

theorem parseValue_obj_head {f : Nat} {cs r : List Char} {kvs : List (String × Json)}
    (h : parseValue f cs = some (.obj kvs, r)) : ∃ t, cs = '{' :: t := by
  match f, cs with
  | 0, cs => simp [parseValue] at h
  | f + 1, [] => simp [parseValue] at h
  | f + 1, c :: rest =>
    by_cases hc : c = '{'
    · exact ⟨rest, by rw [hc]⟩
    · exfalso
      simp only [parseValue, hc, if_false] at h
      repeat' split at h
      all_goals first
        | exact Option.noConfusion h
        | (injection h with hpair; injection hpair with hv hr; exact Json.noConfusion hv)
        | simp_all

theorem parseValue_bracket_arr {f : Nat} {cs r : List Char} {v : Json}
    (h : parseValue f ('[' :: cs) = some (v, r)) : ∃ xs, v = .arr xs := by
  match f with
  | 0 => simp [parseValue] at h
  | f + 1 =>
    simp [parseValue] at h
    repeat' split at h
    all_goals first
      | exact Option.noConfusion h
      | (injection h with hpair; injection hpair with hv hr; exact ⟨_, hv.symm⟩)
      | simp_all

theorem parseValue_brace_obj {f : Nat} {cs r : List Char} {v : Json}
    (h : parseValue f ('{' :: cs) = some (v, r)) : ∃ kvs, v = .obj kvs := by
  match f with
  | 0 => simp [parseValue] at h
  | f + 1 =>
    simp [parseValue] at h
    repeat' split at h
    all_goals first
      | exact Option.noConfusion h
      | (injection h with hpair; injection hpair with hv hr; exact ⟨_, hv.symm⟩)
      | simp_all

theorem startsWithChar_data {s : String} {c : Char}
    (h : startsWithChar s c = true) : ∃ t, s.data = c :: t := by
  unfold startsWithChar at h
  cases hd : s.data with
  | nil => rw [hd] at h; simp at h
  | cons a t =>
    rw [hd] at h
    simp only [List.head?_cons, Option.some.injEq, decide_eq_true_eq] at h
    exact ⟨t, by rw [h]⟩

theorem parsesAsObj_false_of_bracket {l : String}
    (h1 : startsWithChar (pyStrip l) '[' = true) : parsesAsObj l = false := by
  unfold parsesAsObj
  cases hjl : json_loads (pyStrip l) with
  | none => rfl
  | some j =>
    obtain ⟨t, hhead⟩ := startsWithChar_data h1
    unfold json_loads at hjl
    rw [hhead, skipWs_not (by decide)] at hjl
    cases hp : parseValue (('[' :: t).length + 1) ('[' :: t) with
    | none => rw [hp] at hjl; simp at hjl
    | some pr =>
      obtain ⟨v, r⟩ := pr
      rw [hp] at hjl
      obtain ⟨xs, hxs⟩ := parseValue_bracket_arr hp
      replace hjl : (if skipWs r = [] then some v else none) = some j := hjl
      by_cases hr : skipWs r = []
      · rw [if_pos hr] at hjl
        injection hjl with hv
        rw [← hv, hxs]
      · rw [if_neg hr] at hjl; simp at hjl

theorem parsesAsObj_obj_of_brace {l : String} {j : Json}
    (h2 : startsWithChar (pyStrip l) '{' = true)
    (hjl : json_loads (pyStrip l) = some j) : ∃ kvs, j = .obj kvs := by
  obtain ⟨t, hhead⟩ := startsWithChar_data h2
  unfold json_loads at hjl
  rw [hhead, skipWs_not (by decide)] at hjl
  cases hp : parseValue (('{' :: t).length + 1) ('{' :: t) with
  | none => rw [hp] at hjl; simp at hjl
  | some pr =>
    obtain ⟨v, r⟩ := pr
    rw [hp] at hjl
    obtain ⟨kvs, hk⟩ := parseValue_brace_obj hp
    replace hjl : (if skipWs r = [] then some v else none) = some j := hjl
    by_cases hr : skipWs r = []
    · rw [if_pos hr] at hjl
      injection hjl with hv
      exact ⟨kvs, by rw [← hv, hk]⟩
    · rw [if_neg hr] at hjl; simp at hjl

theorem parsesAsObj_false_of_other {l : String}
    (h2 : ¬ startsWithChar (pyStrip l) '{' = true) : parsesAsObj l = false := by
  unfold parsesAsObj
  cases hjl : json_loads (pyStrip l) with
  | none => rfl
  | some j =>
    cases j with
    | obj kvs =>
      exfalso
      unfold json_loads at hjl
      cases hp : parseValue ((pyStrip l).data.length + 1) (skipWs (pyStrip l).data) with
      | none => rw [hp] at hjl; simp at hjl
      | some pr =>
        obtain ⟨v, r⟩ := pr
        rw [hp] at hjl
        replace hjl : (if skipWs r = [] then some v else none) = some (Json.obj kvs) := hjl
        by_cases hr : skipWs r = []
        · rw [if_pos hr] at hjl
          injection hjl with hv
          rw [hv] at hp
          obtain ⟨t, hT⟩ := parseValue_obj_head hp
          cases hd : (pyStrip l).data with
          | nil => rw [hd] at hT; simp [skipWs] at hT
          | cons a t2 =>
            have hnw : pyWs a = false := pyStrip_head_not_ws (by rw [hd]; rfl)
            rw [hd, skipWs_not (pyWs_false_jsonWs hnw)] at hT
            injection hT with ha _
            apply h2
            unfold startsWithChar
            rw [hd, ha]
            rfl
        · rw [if_neg hr] at hjl; simp at hjl
    | null => rfl
    | bool b => rfl
    | num n => rfl
    | str s => rfl
    | arr xs => rfl

theorem readAttempts_cons (n : Nat) (l : String) (rest : List String) :
    readAttempts (n + 1) (l :: rest) =
      if parsesAsObj l = true then json_loads (pyStrip l) else readAttempts n rest := by
  by_cases h0 : l = ""
  · subst h0
    have hobj : parsesAsObj "" = false := rfl
    simp [readAttempts, hobj]
  · by_cases h1 : startsWithChar (pyStrip l) '[' = true
    · have hobj := parsesAsObj_false_of_bracket h1
      simp [readAttempts, h0, h1, hobj]
    · by_cases h2 : startsWithChar (pyStrip l) '{' = true
      · cases hjl : json_loads (pyStrip l) with
        | none =>
          have hobj : parsesAsObj l = false := by unfold parsesAsObj; rw [hjl]
          simp [readAttempts, h0, h1, h2, hjl, hobj]
        | some j =>
          obtain ⟨kvs, hk⟩ := parsesAsObj_obj_of_brace h2 hjl
          have hobj : parsesAsObj l = true := by
            unfold parsesAsObj; rw [hjl, hk]
          simp [readAttempts, h0, h1, h2, hjl, hobj]
      · have hobj := parsesAsObj_false_of_other h2
        simp [readAttempts, h0, h1, h2, hobj]

theorem readAttempts_eq_find (n : Nat) : ∀ reads : List String,
    readAttempts n reads =
      match (reads.take n).find? parsesAsObj with
      | some l => json_loads (pyStrip l)
      | none => none := by
  induction n with
  | zero => intro reads; simp [readAttempts]
  | succ n ih =>
    intro reads
    cases reads with
    | nil =>
      rw [show readAttempts (n + 1) [] = readAttempts n [] from rfl, ih]
      simp
    | cons l rest =>
      rw [readAttempts_cons]
      by_cases hl : parsesAsObj l = true
      · simp [List.take_succ_cons, List.find?_cons_of_pos, hl]
      · rw [if_neg hl, ih]
        have hlf : parsesAsObj l = false := by
          cases hpl : parsesAsObj l
          · rfl
          · exact absurd hpl hl
        simp [List.take_succ_cons, List.find?_cons_of_neg, hlf]

theorem readAttempts_take (n : Nat) (reads : List String) :
    readAttempts n reads = readAttempts n (reads.take n) := by
  rw [readAttempts_eq_find, readAttempts_eq_find, List.take_take]
  simp

/-- Witness for C4 at the tools/call request of end-to-end scenario 2. -/
theorem decode_encode_roundtrip_witness :
    validJson (.obj [("jsonrpc", .str "2.0"), ("method", .str "tools/call"),
      ("params", .obj [("name", .str "ping_slunk"), ("arguments", .obj [])]),
      ("id", .num 2)]) = true ∧
    json_loads (encode (.obj [("jsonrpc", .str "2.0"), ("method", .str "tools/call"),
      ("params", .obj [("name", .str "ping_slunk"), ("arguments", .obj [])]),
      ("id", .num 2)])) =
      some (.obj [("jsonrpc", .str "2.0"), ("method", .str "tools/call"),
        ("params", .obj [("name", .str "ping_slunk"), ("arguments", .obj [])]),
        ("id", .num 2)]) :=
  ⟨rfl, decode_encode_roundtrip
    (.obj [("jsonrpc", .str "2.0"), ("method", .str "tools/call"),
      ("params", .obj [("name", .str "ping_slunk"), ("arguments", .obj [])]),
      ("id", .num 2)]) rfl⟩

/-- C1: calling the ping_slunk handler returns the fixed literal
"Pong slunk!" on every call, and dispatching a tools/call for
"ping_slunk" with any argument mapping (the empty one included)
succeeds with content[0].text equal to that literal. -/
theorem ping_slunk_spec :
    (∀ u : Unit, ping_slunk u = "Pong slunk!") ∧
    (∀ args : List (String × Json),
      handleToolsCall "ping_slunk" args =
        { result := some { content := [{ type := "text", text := "Pong slunk!" }] },
          error := none }) ∧
    ((handleToolsCall "ping_slunk" []).result.map
      fun r => r.content.head?.map fun c => c.text) = some (some "Pong slunk!") :=
  ⟨fun _ => rfl, fun _ => rfl, rfl⟩

/-- C5: an initialize request returns a result whose serverInfo.name
field equals "slunk", for any framework-chosen version string. -/
theorem initialize_serverInfo_name (version : String) :
    (initialize_result version).serverInfo.name = "slunk" := rfl

/-- C8: a tools/call request naming a tool that is not in the registry
fails dispatch with UnknownToolError, and the reply is an error
response, never a successful response carrying a content payload. -/
theorem unknown_tool_error (name : String) (args : List (String × Json))
    (h : registry.find? (fun p => p.1 = name) = none) :
    dispatch name args = .error .unknownTool ∧
    (handleToolsCall name args).result = none ∧
    (handleToolsCall name args).error.isSome = true := by
  refine ⟨?_, ?_, ?_⟩ <;> simp [dispatch, handleToolsCall, h]

/-- Witness for C8 at the unregistered name of end-to-end scenario 3. -/
theorem unknown_tool_error_witness :
    registry.find? (fun p => p.1 = "not_a_real_tool") = none ∧
    dispatch "not_a_real_tool" [] = .error .unknownTool :=
  ⟨rfl, (unknown_tool_error "not_a_real_tool" [] rfl).1⟩

/-- C2: the send_request read loop reads at most max_attempts lines
(its result depends only on that prefix of the stream), returns the
parse of the first line among them whose stripped text parses as a JSON
object, returns none when no such line is among them (attempts
exhausted, or the stream closed and yielding empty reads), and skips
any malformed or non-object line without failing, consuming one
attempt. -/
theorem decode_next_spec :
    (∀ (n : Nat) (reads : List String),
      readAttempts n reads = readAttempts n (reads.take n)) ∧
    (∀ (n : Nat) (reads : List String),
      readAttempts n reads =
        match (reads.take n).find? parsesAsObj with
        | some l => json_loads (pyStrip l)
        | none => none) ∧
    (∀ (n : Nat) (l : String) (rest : List String),
      readAttempts (n + 1) (l :: rest) =
        if parsesAsObj l = true then json_loads (pyStrip l)
        else readAttempts n rest) :=
  ⟨readAttempts_take, readAttempts_eq_find, readAttempts_cons⟩

/-- Counterexample to C3 as stated: a stream of ten non-JSON lines
followed by a well-formed JSON object line makes the decoder return
none, because every skipped line consumes one of the ten attempts. -/
theorem decoder_junk_overflow :
    parsesAsObj "\x7b\x7d" = true ∧
    send_request (List.replicate 10 "x" ++ ["\x7b\x7d"]) = none :=
  ⟨rfl, rfl⟩

/-- C3 amended: a response stream of fewer than 10 non-JSON-object
lines followed by a single well-formed JSON object line yields exactly
that JSON object, all preceding lines discarded and none causing a
failure; with 10 or more preceding lines the decoder returns none. -/
theorem decoder_skips_junk (pre : List String) (j : String)
    (hlen : pre.length < 10) (hpre : ∀ l ∈ pre, parsesAsObj l = false)
    (hj : parsesAsObj j = true) :
    send_request (pre ++ [j]) = json_loads (pyStrip j) ∧
    ∃ kvs, json_loads (pyStrip j) = some (.obj kvs) := by
  constructor
  · rw [send_request, readAttempts_eq_find]
    have htake : (pre ++ [j]).take 10 = pre ++ [j] := by
      apply List.take_of_length_le
      simp
      omega
    rw [htake, List.find?_append]
    rw [List.find?_eq_none.mpr fun x hx => by rw [hpre x hx]; exact Bool.false_ne_true]
    rw [List.find?_cons_of_pos _ hj]
    rfl
  · unfold parsesAsObj at hj
    cases hjl : json_loads (pyStrip j) with
    | none => rw [hjl] at hj; simp at hj
    | some v =>
      rw [hjl] at hj
      cases v with
      | obj kvs => exact ⟨kvs, rfl⟩
      | null => simp at hj
      | bool b => simp at hj
      | num n => simp at hj
      | str s => simp at hj
      | arr xs => simp at hj

/-- Witness for the amended C3: one junk line, then an object line. -/
theorem decoder_skips_junk_witness :
    (["x"].length < 10 ∧ (∀ l ∈ ["x"], parsesAsObj l = false) ∧
      parsesAsObj "\x7b\x7d" = true) ∧
    send_request (["x"] ++ ["\x7b\x7d"]) = json_loads (pyStrip "\x7b\x7d") := by
  have hpre : ∀ l ∈ ["x"], parsesAsObj l = false := by
    intro l hl
    simp only [List.mem_singleton] at hl
    subst hl
    rfl
  exact ⟨⟨by decide, hpre, rfl⟩,
    (decoder_skips_junk ["x"] "\x7b\x7d" (by decide) hpre rfl).1⟩

/-- C9: the decoder returns a value only for a line whose stripped text
parses as a JSON object (so the value is an object); a JSON array line
is skipped like debug output; every skipped line consumes one of the 10
attempts; and an object line preceded by 10 junk lines is lost. -/
theorem send_request_obj_only :
    (∀ (reads : List String) (j : Json),
      send_request reads = some j → ∃ kvs, j = .obj kvs) ∧
    (∀ (n : Nat) (rest : List String),
      readAttempts (n + 1) ("[1, 2]" :: rest) = readAttempts n rest) ∧
    (∀ (n : Nat) (l : String) (rest : List String), parsesAsObj l = false →
      readAttempts (n + 1) (l :: rest) = readAttempts n rest) ∧
    send_request (List.replicate 10 "x" ++ ["\x7b\"a\": 1\x7d"]) = none := by
  refine ⟨?_, ?_, ?_, rfl⟩
  · intro reads j h
    rw [send_request, readAttempts_eq_find] at h
    cases hf : (reads.take 10).find? parsesAsObj with
    | none => rw [hf] at h; simp at h
    | some l =>
      rw [hf] at h
      replace h : json_loads (pyStrip l) = some j := h
      have hp := List.find?_some hf
      unfold parsesAsObj at hp
      cases hjl : json_loads (pyStrip l) with
      | none => rw [hjl] at hp; simp at hp
      | some v =>
        rw [hjl] at h hp
        cases v with
        | obj kvs =>
          injection h with hv
          exact ⟨kvs, hv.symm⟩
        | null => simp at hp
        | bool b => simp at hp
        | num n => simp at hp
        | str s => simp at hp
        | arr xs => simp at hp
  · intro n rest
    rw [readAttempts_cons]
    have : parsesAsObj "[1, 2]" = false := rfl
    rw [this]
    simp
  · intro n l rest hl
    rw [readAttempts_cons, hl]
    simp

/-- Witness for C9: a concrete object response and a concrete skipped
line. -/
theorem send_request_obj_only_witness :
    (∃ kvs, Json.obj [] = Json.obj kvs) ∧
    readAttempts 1 ["y"] = readAttempts 0 [] :=
  ⟨send_request_obj_only.1 ["\x7b\x7d"] (.obj []) rfl,
    send_request_obj_only.2.2.1 0 "y" [] rfl⟩

theorem timeout_ne_error_status (msg : String) :
    ("TIMEOUT" : String) ≠ "ERROR: " ++ msg := by
  intro h
  have hL : ("TIMEOUT" : String).data.head? = some 'T' := rfl
  have hR : (("ERROR: " : String) ++ msg).data.head? = some 'E' := by
    rw [String.data_append]
    rfl
  rw [h, hR] at hL
  simp at hL

/-- C6: when the decoded response is none (no well-formed response
within the 10-second bound), verify_tool records the distinct terminal
status TIMEOUT - never SUCCESS and never an ERROR status - and issues
exactly one request for the call; test_mcp_comprehensive likewise
records the distinct status timeout on TimeoutExpired. -/
theorem timeout_status_spec :
    VerifyAllTools.verify_tool_status none = some "TIMEOUT" ∧
    (("TIMEOUT" : String) == "SUCCESS") = false ∧
    (∀ msg : String, (("TIMEOUT" : String) == "ERROR: " ++ msg) = false) ∧
    (∀ (name : String) (params : Json),
      (VerifyAllTools.verify_tool_requests name params).length = 1) ∧
    Comprehensive.case_status .timedOut = "timeout" ∧
    (("timeout" : String) == "success") = false ∧
    (("timeout" : String) == "error") = false := by
  refine ⟨rfl, rfl, ?_, fun _ _ => rfl, rfl, rfl, rfl⟩
  intro msg
  exact beq_eq_false_iff_ne.mpr (timeout_ne_error_status msg)

/-- Counterexample to C7 as stated: the TimeoutExpired path of one
test_mcp_comprehensive test case kills the spawned subprocess but never
waits on it, so that run ends with the subprocess unreaped. -/
theorem comprehensive_timeout_no_wait :
    spawned (test_case_trace .timedOut) = true ∧
    reaped (test_case_trace .timedOut) = false :=
  ⟨rfl, rfl⟩

/-- C7 amended: in test_all_mcp_tools.test_mcp_server and
verify_all_tools.main the spawned subprocess is terminated and waited
on before the driver finishes on every path (success or exception); in
test_mcp_comprehensive a completed communicate reaps the subprocess,
but the timeout path kills it without waiting on it and the unexpected
exception path performs no cleanup at all. -/
theorem process_cleanup_spec :
    (∀ bodyRaises,
      spawned (test_mcp_server_trace bodyRaises) = true ∧
      terminated (test_mcp_server_trace bodyRaises) = true ∧
      reaped (test_mcp_server_trace bodyRaises) = true) ∧
    (∀ serverStarted bodyRaises,
      spawned (main_trace serverStarted bodyRaises) = true →
      terminated (main_trace serverStarted bodyRaises) = true ∧
      reaped (main_trace serverStarted bodyRaises) = true) ∧
    (reaped (test_case_trace .completed) = true ∧
      terminated (test_case_trace .timedOut) = true ∧
      reaped (test_case_trace .timedOut) = false ∧
      terminated (test_case_trace .raised) = false) := by
  refine ⟨fun _ => ⟨rfl, rfl, rfl⟩, ?_, rfl, rfl, rfl, rfl⟩
  intro s b
  cases s with
  | true => intro _; exact ⟨rfl, rfl⟩
  | false => intro h; simp [main_trace, spawned, List.contains] at h

/-- Witness for the amended C7: the normal verify_all_tools run. -/
theorem process_cleanup_spec_witness :
    spawned (main_trace true false) = true ∧
    terminated (main_trace true false) = true ∧
    reaped (main_trace true false) = true :=
  ⟨rfl, process_cleanup_spec.2.1 true false rfl⟩

/-- C10: in verify_all_tools, the initialize request and every
tools/call request issued through verify_tool carry the same
correlation id 1 (the request_id default); only the tools/list request
uses id 2, so distinct requests within one server session share id 1. -/
theorem request_id_sharing :
    VerifyAllTools.reqId VerifyAllTools.initialize_request = some (.num 1) ∧
    (∀ (name : String) (params : Json),
      VerifyAllTools.reqId (VerifyAllTools.verify_tool_request name params) =
        some (.num 1)) ∧
    VerifyAllTools.reqId VerifyAllTools.tools_list_request = some (.num 2) ∧
    VerifyAllTools.request_id_default = 1 :=
  ⟨rfl, fun _ _ => rfl, rfl, rfl⟩

end Slunk
